import Mathlib

/-!
Verification of the email-to-ticket parser (`src/js/parser.js`).

Text is modelled as `List Char` (one entry per code point).  JavaScript
numbers appearing in confidence arithmetic are modelled as rationals: every
constant involved (`0.15`, `0.25`, `1.0` and their small multiples) is
represented exactly enough in binary64 that all comparisons performed by the
code (`< 0.25`, `min _ 1.0`, ordering of `k * 0.15`) agree with exact
rational arithmetic, so the rational model is faithful for the properties
proved here.  Case folding is modelled with `Char.toLower` (ASCII); every
configured keyword is ASCII, so classification is unaffected.
-/

set_option maxHeartbeats 1000000
set_option synthInstance.maxHeartbeats 400000

namespace EmailTicket

/-- Text, one entry per code point. -/
abbrev Str := List Char

/-- The whitespace class of JavaScript (`\s`, also used by `String.trim`):
tab, LF, VT, FF, CR, space, NBSP, and the Unicode space separators. -/
def wsChar (c : Char) : Bool :=
  decide (c.val = 9) || decide (c.val = 10) || decide (c.val = 11) ||
  decide (c.val = 12) || decide (c.val = 13) || decide (c.val = 32) ||
  decide (c.val = 160) || decide (c.val = 5760) ||
  (decide (8192 ≤ c.val) && decide (c.val ≤ 8202)) ||
  decide (c.val = 8232) || decide (c.val = 8233) || decide (c.val = 8239) ||
  decide (c.val = 8287) || decide (c.val = 12288) || decide (c.val = 65279)

/-- Model of `String.prototype.trim`. -/
def trimChars (s : Str) : Str :=
  ((s.dropWhile wsChar).reverse.dropWhile wsChar).reverse

/-- Model of `String.prototype.toLowerCase` (ASCII fold; all keywords are ASCII). -/
def lowerStr (s : Str) : Str := s.map Char.toLower

/-- Model of `String.prototype.includes pat`: substring containment. -/
def containsSubstr (s pat : Str) : Bool := decide (pat <:+: s)

/-- One entry of the constructor's category table: key, keyword list,
default priority. -/
structure CategoryDef where
  name : Str
  keywords : List Str
  priority : Str
deriving DecidableEq

/-- The category table built in the `EmailParser` constructor, in insertion
order (the order `Object.entries` iterates). -/
def categories : List CategoryDef :=
  [ ⟨"password_reset".data,
      [("password").data, ("forgot").data, ("reset").data, ("unlock").data,
       ("locked out").data, ("can\x27t login").data, ("cannot login").data],
      ("high").data⟩,
    ⟨"email_issue".data,
      [("email").data, ("outlook").data, ("can\x27t send").data,
       ("cannot receive").data, ("inbox").data, ("spam").data],
      ("medium").data⟩,
    ⟨"printer_issue".data,
      [("printer").data, ("print").data, ("printing").data, ("queue").data,
       ("spooler").data, ("jam").data, ("toner").data],
      ("medium").data⟩,
    ⟨"network_issue".data,
      [("network").data, ("internet").data, ("wifi").data, ("vpn").data,
       ("connection").data, ("ethernet").data, ("offline").data],
      ("high").data⟩,
    ⟨"software_install".data,
      [("install").data, ("software").data, ("application").data,
       ("program").data, ("download").data, ("setup").data],
      ("low").data⟩,
    ⟨"access_request".data,
      [("access").data, ("permission").data, ("share").data, ("folder").data,
       ("drive").data, ("cannot access").data, ("denied").data],
      ("medium").data⟩,
    ⟨"hardware_issue".data,
      [("laptop").data, ("computer").data, ("monitor").data, ("keyboard").data,
       ("mouse").data, ("broken").data, ("not working").data],
      ("medium").data⟩,
    ⟨"performance_issue".data,
      [("slow").data, ("frozen").data, ("crash").data, ("not responding").data,
       ("hang").data, ("lag").data, ("freeze").data],
      ("medium").data⟩ ]

/-- The constructor's `urgencyKeywords` list. -/
def urgencyKeywords : List Str :=
  [("urgent").data, ("asap").data, ("emergency").data, ("critical").data,
   ("immediately").data, ("right now").data, ("down").data, ("broken").data,
   ("can\x27t work").data, ("cannot work").data, ("production").data]

/-- Result shape returned by `classifyIssue`. -/
structure ClassificationResult where
  name : Str
  confidence : ℚ
  priority : Str
deriving DecidableEq

/-- The classification `classifyIssue` starts from and also returns on empty
or non-string input. -/
def otherZero : ClassificationResult := ⟨"other".data, 0, ("medium").data⟩

/-- The low-confidence floor result of `classifyIssue`. -/
def otherFloor : ClassificationResult := ⟨"other".data, 15/100, ("medium").data⟩

/-- Number of a category's keywords contained in the (already lower-cased,
length-limited) text — the `matches`/`score` counter of `classifyIssue`.
(`score` and `matches` are incremented together, hence equal.) -/
def matchCount (lowerT : Str) (kws : List Str) : Nat :=
  kws.countP fun k => containsSubstr lowerT (lowerStr k)

/-- `Math.min(matches * 0.15, 1.0)` — the confidence formula. -/
def confOf (m : Nat) : ℚ := min ((m : ℚ) * (15/100)) 1

/-- The `bestMatch` object built when a category beats the running maximum
(`category.priority || 'medium'` modelled by the emptiness test, the only
falsy string). -/
def mkBest (c : CategoryDef) (score : Nat) : ClassificationResult :=
  ⟨c.name, confOf score,
   if c.priority = [] then ("medium").data else c.priority⟩

/-- The `for (const [categoryName, category] of Object.entries(...))` loop of
`classifyIssue`: running `(bestMatch, maxScore)` state, updated on a strict
improvement (`score > maxScore`).  (The `Array.isArray` guard never fires:
every configured category has a keyword array.) -/
def bestFold (lowerT : Str) (l : List CategoryDef)
    (acc : ClassificationResult × Nat) : ClassificationResult × Nat :=
  l.foldl
    (fun acc c =>
      let score := matchCount lowerT c.keywords
      if acc.2 < score then (mkBest c score, score) else acc)
    acc

/-- `classifyIssue` on a string argument (`parser.js` lines 202–247):
empty-string guard, 5000-char limit, lower-casing, scoring loop, and the
low-confidence floor. -/
def classifyIssue (text : Str) : ClassificationResult :=
  if text = [] then otherZero
  else
    let lowerT := lowerStr (text.take 5000)
    let best := (bestFold lowerT categories (otherZero, 0)).1
    if best.confidence < 25/100 then otherFloor else best

/-- `classifyIssue` on a dynamically typed argument: `none` models any
non-string value, which the `typeof text !== 'string'` guard rejects. -/
def classifyIssueDyn : Option Str → ClassificationResult
  | none => otherZero
  | some s => classifyIssue s

/-- `hasUrgency` test of `determinePriority`: some urgency keyword is a
substring of the lower-cased text. -/
def hasUrgency (text : Str) : Bool :=
  urgencyKeywords.any fun k => containsSubstr (lowerStr text) (lowerStr k)

/-- `determinePriority` (`parser.js` lines 252–265). -/
def determinePriority (text : Str) (category : ClassificationResult) : Str :=
  if hasUrgency text then ("urgent").data
  else if category.priority = [] then ("medium").data else category.priority

/-- The per-category score `classifyIssue` computes for text `t`
(lower-cased 5000-char prefix). -/
def scoreOf (t : Str) (c : CategoryDef) : Nat :=
  matchCount (lowerStr (t.take 5000)) c.keywords

/-- Maximum score over a list of categories. -/
def maxScoreL (t : Str) (l : List CategoryDef) : Nat :=
  (l.map (scoreOf t)).foldr max 0

/-- Maximum score over the configured categories. -/
def maxScoreOf (t : Str) : Nat := maxScoreL t categories

/-- Per-category confidence as computed inside the loop. -/
def confFor (t : Str) (c : CategoryDef) : ℚ := confOf (scoreOf t c)

/-! ### Backtracking primitives modelling the JavaScript regexes

The extraction regexes of `parser.js` are bounded (explicit repetition
counts, single-character classes), so each is modelled by a specialised
backtracking matcher built from the combinators below, which implement the
usual leftmost, greedy-with-backtracking semantics of the JS engine. -/

/-- Greedy `p{0,n}` followed by a continuation: longer runs are tried
first, backtracking one character at a time on failure. -/
def repUpto (p : Char → Bool) : Nat → Str → (Str → Option Str) → Option Str
  | 0, s, cont => cont s
  | n+1, s, cont =>
    match s with
    | [] => cont []
    | c :: rest =>
      if p c then
        match repUpto p n rest cont with
        | some r => some r
        | none => cont (c :: rest)
      else cont (c :: rest)

/-- Greedy `p{1,hi}` followed by a continuation. -/
def repRange1 (p : Char → Bool) (hi : Nat) (s : Str)
    (cont : Str → Option Str) : Option Str :=
  match s with
  | [] => none
  | c :: rest => if p c then repUpto p (hi - 1) rest cont else none

/-- Greedy `(group){0,n}` for a group matcher, with backtracking. -/
def repGroup (g : Str → (Str → Option Str) → Option Str) :
    Nat → Str → (Str → Option Str) → Option Str
  | 0, s, cont => cont s
  | n+1, s, cont =>
    match g s (fun rest => repGroup g n rest cont) with
    | some r => some r
    | none => cont s

/-- The class `[^\n<]` of the `From:`/`Sender:` patterns. -/
def aChar (c : Char) : Bool := !(decide (c = '\n') || decide (c = '<'))

/-- Any character except a newline (`[^\n]`). -/
def notNl (c : Char) : Bool := !decide (c = '\n')

/-- Any character at all (`[\s\S]`). -/
def anyChar (_ : Char) : Bool := true

/-- `<[^>]+>` at the start of the input: returns the matched text and the
remainder. -/
def angleAt (s : Str) : Option (Str × Str) :=
  match s with
  | '<' :: t =>
    let inner := t.takeWhile fun c => !decide (c = '>')
    if inner.length = 0 then none
    else
      match t.drop inner.length with
      | '>' :: r => some ('<' :: (inner ++ ['>']), r)
      | _ => none
  | _ => none

/-- The capture group `([^\n<]+(?:<[^>]+>)?)` at the start of the input
(greedy; the optional angle part is taken when it matches). -/
def captureTail (s1 : Str) : Option Str :=
  match s1 with
  | [] => none
  | c :: _ =>
    if aChar c then
      let run := s1.takeWhile aChar
      match angleAt (s1.drop run.length) with
      | some (ang, _) => some (run ++ ang)
      | none => some run
    else none

/-- `\s*([^\n<]+(?:<[^>]+>)?)` at the start of the input, with the JS
engine's backtracking over the whitespace run; returns the capture. -/
def headerTail (s : Str) : Option Str :=
  repUpto wsChar s.length s captureTail

/-- `Subject:`'s tail `\s*([^\n]+)`: backtracking whitespace, then the
greedy line capture. -/
def subjectTail (s : Str) : Option Str :=
  repUpto wsChar s.length s fun s1 =>
    match s1 with
    | c :: _ => if notNl c then some (s1.takeWhile notNl) else none
    | [] => none

/-- Leftmost scan: at each position try the case-insensitive literal
`header` followed by the tail matcher; a failed position advances by one
character (the JS engine's behaviour). -/
def headerScan (header : Str) (tail : Str → Option Str) : Str → Option Str
  | [] => none
  | c :: rest =>
    if lowerStr ((c :: rest).take header.length) = header then
      match tail ((c :: rest).drop header.length) with
      | some cap => some cap
      | none => headerScan header tail rest
    else headerScan header tail rest

/-- The local-part class of the bare-address pattern of `extractFrom`. -/
def localChar (c : Char) : Bool :=
  c.isAlpha || c.isDigit ||
  decide (c ∈ (['.', '!', '#', '$', '%', '&'] : List Char)) ||
  decide (c.val = 39) ||
  decide (c ∈ (['*', '+', '/', '=', '?', '^', '_'] : List Char)) ||
  decide (c.val = 96) || decide (c.val = 123) || decide (c.val = 124) ||
  decide (c.val = 125) || decide (c ∈ (['~', '-'] : List Char))

/-- `[a-zA-Z0-9]`. -/
def alnumChar (c : Char) : Bool := c.isAlpha || c.isDigit

/-- `[a-zA-Z0-9-]`. -/
def alnumDash (c : Char) : Bool := alnumChar c || decide (c = '-')

/-- One domain label `[a-zA-Z0-9](?:[a-zA-Z0-9-]{0,61}[a-zA-Z0-9])?`. -/
def labelM (s : Str) (cont : Str → Option Str) : Option Str :=
  match s with
  | [] => none
  | c :: rest =>
    if alnumChar c then
      match repUpto alnumDash 61 rest (fun s3 =>
          match s3 with
          | d :: r2 => if alnumChar d then cont r2 else none
          | [] => none) with
      | some r => some r
      | none => cont rest
    else none

/-- `\.` followed by a domain label. -/
def dotLabelM (s : Str) (cont : Str → Option Str) : Option Str :=
  match s with
  | '.' :: rest => labelM rest cont
  | _ => none

/-- The bare-address pattern of `extractFrom` anchored at the start:
local part `{1,64}`, `@`, a label, then up to 10 `.label` groups.  Returns
the remainder after the match. -/
def emailAt (s : Str) : Option Str :=
  repRange1 localChar 64 s fun s1 =>
    match s1 with
    | '@' :: s2 => labelM s2 fun s3 => repGroup dotLabelM 10 s3 fun s4 => some s4
    | _ => none

/-- Leftmost match of the bare-address pattern; returns the matched text. -/
def emailScan : Str → Option Str
  | [] => none
  | c :: rest =>
    match emailAt (c :: rest) with
    | some r => some ((c :: rest).take ((c :: rest).length - r.length))
    | none => emailScan rest

/-- `extractFrom` (`parser.js` lines 107–127): 2000-char bound, then the
three patterns in order, returning the trimmed capture, else the sentinel. -/
def extractFrom (text : Str) : Str :=
  let limited := text.take 2000
  match headerScan (("from:").data) headerTail limited with
  | some cap => trimChars cap
  | none =>
    match headerScan (("sender:").data) headerTail limited with
    | some cap => trimChars cap
    | none =>
      match emailScan limited with
      | some cap => trimChars cap
      | none => ("Unknown Sender").data

/-- The `/^(from|to|subject|sender|date):/i` test of `extractSubject`. -/
def isHeaderFirstLine (l : Str) : Bool :=
  [("from:").data, ("to:").data, ("subject:").data, ("sender:").data,
   ("date:").data].any fun p => p.isPrefixOf (lowerStr l)

/-- Split into lines (`String.prototype.split('\n')`). -/
def splitNl (s : Str) : List Str := s.splitOn '\n'

/-- `extractSubject` (`parser.js` lines 132–149): `Subject:` header first,
then the first nonempty non-header line, else the sentinel. -/
def extractSubject (text : Str) : Str :=
  match headerScan (("subject:").data) subjectTail text with
  | some cap => trimChars cap
  | none =>
    match (splitNl text).filter (fun l => !(trimChars l).isEmpty) with
    | [] => ("No Subject").data
    | l :: _ =>
      if !(isHeaderFirstLine (trimChars l)) then trimChars l
      else ("No Subject").data

/-- The `/^(from|to|subject|sender|date|cc|bcc):/i` test of `extractBody`
(applied to the trimmed line). -/
def isBodyHeaderLine (l : Str) : Bool :=
  [("from:").data, ("to:").data, ("subject:").data, ("sender:").data,
   ("date:").data, ("cc:").data, ("bcc:").data].any
    fun p => p.isPrefixOf (lowerStr l)

/-- Index of the first element satisfying `p` (the `for`/`break` loop of
`extractBody`). -/
def findFirstIdx (p : Str → Bool) : List Str → Option Nat
  | [] => none
  | l :: rest =>
    if p l then some 0 else (findFirstIdx p rest).map (· + 1)

/-- The predicate on which the body-start loop breaks: a line that is
nonempty after trimming and not a header line. -/
def bodyStartPred (l : Str) : Bool :=
  !(isBodyHeaderLine (trimChars l)) && !(trimChars l).isEmpty

/-- `bodyStart` of `extractBody`: first matching line index, else 0. -/
def findBodyStart (lines : List Str) : Nat :=
  (findFirstIdx bodyStartPred lines).getD 0

/-- The "raw body": lines from `bodyStart` onward, re-joined and trimmed. -/
def rawBodyOf (text : Str) : Str :=
  let lines := splitNl text
  trimChars (List.intercalate ['\n'] (lines.drop (findBodyStart lines)))

/-- First index at which `pat` occurs (`String.prototype.indexOf`). -/
def idxOfSub (pat : Str) : Str → Option Nat
  | [] => if pat = [] then some 0 else none
  | c :: rest =>
    if pat.isPrefixOf (c :: rest) then some 0
    else (idxOfSub pat rest).map (· + 1)

/-- Truncate at the first `"\n--"` signature marker. -/
def afterSigMarker (body : Str) : Str :=
  match idxOfSub (['\n', '-', '-']) body with
  | some i => body.take i
  | none => body

/-- `[^\n]{0,100}\n[\s\S]{0,bound}$` — the tail of the `Best regards`,
`Thanks` and `Regards` sign-off patterns. -/
def signOffTailNl (bound : Nat) (s : Str) : Option Str :=
  repUpto notNl 100 s fun s1 =>
    match s1 with
    | '\n' :: s2 => repUpto anyChar bound s2 fun s3 => if s3 = [] then some [] else none
    | _ => none

/-- `[^\n]{0,100}$` — the tail of the `Sent from my ` pattern. -/
def signOffTailEnd (s : Str) : Option Str :=
  repUpto notNl 100 s fun s1 => if s1 = [] then some [] else none

/-- Leftmost start index of `lit` (case-insensitive) followed by a
successful tail match. -/
def signOffScan (lit : Str) (tail : Str → Option Str) : Str → Option Nat
  | [] => none
  | c :: rest =>
    if lowerStr ((c :: rest).take lit.length) = lit then
      match tail ((c :: rest).drop lit.length) with
      | some _ => some 0
      | none => (signOffScan lit tail rest).map (· + 1)
    else (signOffScan lit tail rest).map (· + 1)

/-- `String.prototype.replace(signOffRe, '')`: the matches are anchored at
`$`, so removing the first match truncates at its start index. -/
def applySignOff (lit : Str) (tail : Str → Option Str) (s : Str) : Str :=
  match signOffScan lit tail s with
  | some i => s.take i
  | none => s

/-- The four sign-off replacements of `extractBody`, in order. -/
def stripSignOffs (s : Str) : Str :=
  applySignOff (("regards").data) (signOffTailNl 200)
    (applySignOff (("sent from my ").data) signOffTailEnd
      (applySignOff (("thanks").data) (signOffTailNl 300)
        (applySignOff (("best regards").data) (signOffTailNl 300) s)))

/-- `withoutSignature.trim()` — the stripped body before the fallback. -/
def strippedTrimOf (text : Str) : Str :=
  trimChars (stripSignOffs (afterSigMarker (rawBodyOf text)))

/-- `extractBody` (`parser.js` lines 154–197): header-line skipping,
signature-marker truncation, sign-off stripping, and the
`withoutSignature.trim() || body` fallback. -/
def extractBody (text : Str) : Str :=
  if strippedTrimOf text = [] then rawBodyOf text else strippedTrimOf text

/-! ### Ticket assembly and `parse` -/

/-- The two error kinds of §7 of the specification, carrying the thrown
message. -/
inductive ParseError where
  | invalidInput (msg : Str)
  | extractionFailure (msg : Str)
deriving DecidableEq

/-- The catch-block clamp: messages longer than 200 characters are replaced
by the generic one. -/
def sanitizeMsg (m : Str) : Str :=
  if 200 < m.length then ("Error parsing email: Invalid format").data else m

/-- The catch-block clamp lifted to errors. -/
def sanitizeErr : ParseError → ParseError
  | .invalidInput m => .invalidInput (sanitizeMsg m)
  | .extractionFailure m => .extractionFailure (sanitizeMsg m)

/-- The two sources of external entropy of `parse` (`generateTicketId` and
`new Date().toISOString()`), passed in as parameters of the model. -/
structure Entropy where
  ticketId : Str
  timestamp : Str
deriving DecidableEq

/-- The record `parse` returns (the `from` field is `fromAddr` here,
`from` being reserved in Lean). -/
structure TicketRecord where
  ticketId : Str
  fromAddr : Str
  subject : Str
  body : Str
  category : Str
  categoryLabel : Str
  priority : Str
  confidence : ℚ
  timestamp : Str
  insights : Str
deriving DecidableEq

/-- The per-character HTML-entity escape of `formatCategoryName` and
`sanitizeText`. -/
def htmlEscapeChar (c : Char) : Str :=
  if c = '<' then ("&lt;").data
  else if c = '>' then ("&gt;").data
  else if c = '&' then ("&amp;").data
  else if c.val = 34 then ("&quot;").data
  else if c.val = 39 then ("&#x27;").data
  else [c]

/-- `String(name).replace(/[<>&"']/g, entities)`. -/
def htmlEscape (s : Str) : Str := (s.map htmlEscapeChar).flatten

/-- `word.charAt(0).toUpperCase() + word.slice(1)`. -/
def capitalizeWord (w : Str) : Str :=
  match w with
  | [] => []
  | c :: rest => c.toUpper :: rest

/-- `formatCategoryName` (`parser.js` lines 291–307). -/
def formatCategoryName (name : Str) : Str :=
  List.intercalate [' '] (((htmlEscape name).splitOn '_').map capitalizeWord)

/-- Decimal digits of a natural number. -/
def natDigits (n : Nat) : Str := (Nat.repr n).data

/-- `Number.prototype.toFixed(0)` on the clamped (hence nonnegative)
percentage: nearest integer, ties rounding up. -/
def ratToFixed0 (q : ℚ) : Str := natDigits (Int.toNat ((q + 1/2).floor))

/-- `Math.max(0, Math.min(100, confidence * 100)).toFixed(0)`. -/
def confPercent (conf : ℚ) : Str := ratToFixed0 (max 0 (min 100 (conf * 100)))

/-- `generateInsights` (`parser.js` lines 329–364).  The
`validCategories.includes` allow-list is equivalent to the three name
tests, since the three tested names are all in the list. -/
def generateInsights (category : ClassificationResult) (priority : Str)
    (body : Str) : Str :=
  let i1 : List Str :=
    if category.name ≠ "other".data then
      [("✓ Automatically categorized as \"").data ++
        formatCategoryName category.name ++ ("\" with ").data ++
        confPercent category.confidence ++ ("% confidence").data]
    else []
  let i2 : List Str :=
    if priority = ("urgent").data then
      [("⚠️ Marked as URGENT - detected urgency indicators in message").data]
    else []
  let i3 : List Str :=
    if body.length < 50 then
      [("ℹ️ Very brief message - may need follow-up for more details").data]
    else if 500 < body.length then
      [("ℹ️ Detailed message - user provided comprehensive information").data]
    else []
  let i4 : List Str :=
    if category.name = "password_reset".data then
      [("💡 Suggestion: This can often be auto-resolved with a password reset link").data]
    else if category.name = "software_install".data then
      [("💡 Suggestion: Check if user has admin rights before proceeding").data]
    else if category.name = "network_issue".data then
      [("💡 Suggestion: Ask user to check physical connections and restart router").data]
    else []
  let insights := i1 ++ i2 ++ i3 ++ i4
  if insights.isEmpty then ("No additional insights available").data
  else List.intercalate ['\n'] insights

/-- `parse` (`parser.js` lines 53–102): validation, extraction,
classification, priority, assembly; failures are surfaced as `Except`
errors through the catch-block message clamp. -/
def parse (ε : Entropy) (emailText : Str) : Except ParseError TicketRecord :=
  if emailText = [] then
    .error (sanitizeErr (.invalidInput (("Email text must be a non-empty string").data)))
  else
    let trimmedText := trimChars emailText
    if trimmedText = [] then
      .error (sanitizeErr (.invalidInput (("Email text cannot be empty").data)))
    else if 100000 < trimmedText.length then
      .error (sanitizeErr (.invalidInput (("Email text too large (max 100KB)").data)))
    else
      let fromAddr := extractFrom trimmedText
      let subject := extractSubject trimmedText
      let body := extractBody trimmedText
      if body = [] then
        .error (sanitizeErr (.extractionFailure (("Could not extract email body").data)))
      else
        let category := classifyIssue (subject ++ [' '] ++ body)
        let priority := determinePriority (subject ++ [' '] ++ body) category
        .ok
          { ticketId := ε.ticketId
            fromAddr := fromAddr
            subject := subject
            body := body
            category := category.name
            categoryLabel := formatCategoryName category.name
            priority := priority
            confidence := category.confidence
            timestamp := ε.timestamp
            insights := generateInsights category priority body }

/-- The `subject + ' ' + body` text handed to the classifier (here `t` is
the already-trimmed input). -/
def combinedText (t : Str) : Str := extractSubject t ++ [' '] ++ extractBody t

/-- The record `parse` assembles on the success path, as a function of the
trimmed input text and the entropy parameters. -/
def assembledRecord (ε : Entropy) (t : Str) : TicketRecord :=
  { ticketId := ε.ticketId
    fromAddr := extractFrom t
    subject := extractSubject t
    body := extractBody t
    category := (classifyIssue (combinedText t)).name
    categoryLabel := formatCategoryName (classifyIssue (combinedText t)).name
    priority := determinePriority (combinedText t) (classifyIssue (combinedText t))
    confidence := (classifyIssue (combinedText t)).confidence
    timestamp := ε.timestamp
    insights := generateInsights (classifyIssue (combinedText t))
      (determinePriority (combinedText t) (classifyIssue (combinedText t)))
      (extractBody t) }

/-! ### Structured export (`toJSON`) and deserialisation

`toJSON` is `JSON.stringify(parsed, null, 2)` on the ticket record.
Deserialisation is the platform's `JSON.parse`, modelled by a
recursive-descent parser restricted to the shapes `toJSON` emits (a flat
object whose values are strings and one number; `JSON.parse` accepts more,
which never arises here). -/

/-- Lower-case hexadecimal digit (also used for plain decimal digits). -/
def hexDigit (n : Nat) : Char := Char.ofNat (if n < 10 then 48 + n else 87 + n)

/-- `JSON.stringify`'s escaping of one character: quote and backslash are
backslash-escaped, the five named control escapes are used where they
exist, remaining control characters become `\u00XX`, and every other
character is emitted literally. -/
def escapeChar (c : Char) : Str :=
  if c.val = 34 then ['\\', Char.ofNat 34]
  else if c = '\\' then ['\\', '\\']
  else if c.val = 8 then ['\\', 'b']
  else if c = '\t' then ['\\', 't']
  else if c = '\n' then ['\\', 'n']
  else if c.val = 12 then ['\\', 'f']
  else if c.val = 13 then ['\\', 'r']
  else if c.val < 32 then
    ['\\', 'u', '0', '0', hexDigit (c.toNat / 16), hexDigit (c.toNat % 16)]
  else [c]

/-- String-body escaping. -/
def escapeString (s : Str) : Str := (s.map escapeChar).flatten

/-- A quoted JSON string. -/
def quoteStr (s : Str) : Str :=
  Char.ofNat 34 :: (escapeString s ++ [Char.ofNat 34])

/-- Decimal digits of a natural number. -/
def natStr (n : Nat) : Str := (Nat.repr n).data

/-- Decimal rendering of the confidence field.  `parse` only produces
multiples of 1/20 in `[0,1]` (`classify_conf_mem`), all exactly
representable in binary64, for which `JSON.stringify` prints the exact
shortest decimal — reproduced here for rationals with denominator dividing
100 (the fallback branch is unreachable from `parse`). -/
def renderConf (q : ℚ) : Str :=
  if 0 ≤ q ∧ (q * 100).den = 1 then
    let m := (q * 100).num.toNat
    if m % 100 = 0 then natStr (m / 100)
    else if m % 10 = 0 then natStr (m / 100) ++ ('.' :: [hexDigit ((m / 10) % 10)])
    else natStr (m / 100) ++ ('.' :: [hexDigit ((m / 10) % 10), hexDigit (m % 10)])
  else ("0").data

/-- JSON values occurring in a serialized ticket record. -/
inductive JVal where
  | jstr (s : Str)
  | jnum (q : ℚ)
deriving DecidableEq

/-- Render a JSON value. -/
def renderJVal : JVal → Str
  | .jstr s => quoteStr s
  | .jnum q => renderConf q

/-- The ten fields of the record, in `JSON.stringify`'s (insertion)
order. -/
def recordFields (r : TicketRecord) : List (Str × JVal) :=
  [ (("ticketId").data, .jstr r.ticketId),
    (("from").data, .jstr r.fromAddr),
    (("subject").data, .jstr r.subject),
    (("body").data, .jstr r.body),
    (("category").data, .jstr r.category),
    (("categoryLabel").data, .jstr r.categoryLabel),
    (("priority").data, .jstr r.priority),
    (("confidence").data, .jnum r.confidence),
    (("timestamp").data, .jstr r.timestamp),
    (("insights").data, .jstr r.insights) ]

/-- One `"key": value` line at indent 2. -/
def renderMember (kv : Str × JVal) : Str :=
  ("  ").data ++ quoteStr kv.1 ++ (": ").data ++ renderJVal kv.2

/-- `toJSON` (`parser.js` lines 369–371): `JSON.stringify(parsed, null, 2)`. -/
def toJSON (r : TicketRecord) : Str :=
  Char.ofNat 123 :: '\n' ::
    (List.intercalate ((",\n").data) ((recordFields r).map renderMember) ++
      ('\n' :: [Char.ofNat 125]))

/-- JSON whitespace accepted by `JSON.parse`. -/
def jsonWs (c : Char) : Bool :=
  decide (c = ' ') || decide (c = '\t') || decide (c = '\n') || decide (c.val = 13)

/-- Skip insignificant whitespace. -/
def skipWs (s : Str) : Str := s.dropWhile jsonWs

/-- Value of one hexadecimal digit. -/
def hexVal (c : Char) : Option Nat :=
  if '0' ≤ c ∧ c ≤ '9' then some (c.toNat - 48)
  else if 'a' ≤ c ∧ c ≤ 'f' then some (c.toNat - 87)
  else if 'A' ≤ c ∧ c ≤ 'F' then some (c.toNat - 55)
  else none

/-- The named single-character escapes of JSON. -/
def simpleEscape (e : Char) : Option Char :=
  if e.val = 34 then some (Char.ofNat 34)
  else if e = '\\' then some '\\'
  else if e = '/' then some '/'
  else if e = 'b' then some (Char.ofNat 8)
  else if e = 'f' then some (Char.ofNat 12)
  else if e = 'n' then some '\n'
  else if e = 'r' then some (Char.ofNat 13)
  else if e = 't' then some '\t'
  else none

/-- JSON string-body parser (after the opening quote): returns the decoded
content and the remainder after the closing quote. -/
def parseStringBody : Str → Option (Str × Str)
  | [] => none
  | c :: r =>
    if c.val = 34 then some ([], r)
    else if c = '\\' then
      match r with
      | 'u' :: h1 :: h2 :: h3 :: h4 :: r2 =>
        match hexVal h1, hexVal h2, hexVal h3, hexVal h4 with
        | some a, some b, some x, some d =>
          (parseStringBody r2).map fun p =>
            (Char.ofNat (((a * 16 + b) * 16 + x) * 16 + d) :: p.1, p.2)
        | _, _, _, _ => none
      | e :: r2 =>
        match simpleEscape e with
        | some ch => (parseStringBody r2).map fun p => (ch :: p.1, p.2)
        | none => none
      | [] => none
    else (parseStringBody r).map fun p => (c :: p.1, p.2)

/-- Digit string to number. -/
def digitsToNat (ds : Str) : Nat := ds.foldl (fun a c => a * 10 + (c.toNat - 48)) 0

/-- JSON number parser, without an exponent part (the renderer never emits
one): optional sign, integer digits, optional fraction. -/
def parseNumber (s : Str) : Option (ℚ × Str) :=
  let p : Bool × Str :=
    match s with
    | '-' :: r => (true, r)
    | _ => (false, s)
  let ds := p.2.takeWhile Char.isDigit
  if ds = [] then none
  else
    let s2 := p.2.drop ds.length
    let iv : ℚ := (digitsToNat ds : ℚ)
    match s2 with
    | '.' :: r =>
      let fs := r.takeWhile Char.isDigit
      if fs = [] then none
      else
        let q : ℚ := iv + (digitsToNat fs : ℚ) / ((10 : ℚ) ^ fs.length)
        some ((if p.1 then -q else q), r.drop fs.length)
    | _ => some ((if p.1 then -iv else iv), s2)

/-- A JSON value: a string or a number (the only shapes in a record). -/
def parseValue (s : Str) : Option (JVal × Str) :=
  match s with
  | c :: r =>
    if c.val = 34 then (parseStringBody r).map fun p => (JVal.jstr p.1, p.2)
    else (parseNumber (c :: r)).map fun p => (JVal.jnum p.1, p.2)
  | [] => none

/-- Object members: `"key": value` separated by commas, terminated by the
closing brace; the fuel bounds recursion (each member consumes at least one
character). -/
def parseMembers : Nat → Str → Option (List (Str × JVal) × Str)
  | 0, _ => none
  | fuel+1, s =>
    match skipWs s with
    | c :: r =>
      if c.val = 34 then
        match parseStringBody r with
        | some (key, r1) =>
          match skipWs r1 with
          | ':' :: r3 =>
            match parseValue (skipWs r3) with
            | some (v, r4) =>
              match skipWs r4 with
              | ',' :: r6 =>
                (parseMembers fuel r6).map fun p => ((key, v) :: p.1, p.2)
              | d :: r6 => if d.val = 125 then some ([(key, v)], r6) else none
              | [] => none
            | none => none
          | _ => none
        | none => none
      else none
    | [] => none

/-- Parse a top-level JSON object (the shape `toJSON` emits; the empty
object never arises). -/
def jsonParseObj (s : Str) : Option (List (Str × JVal)) :=
  match skipWs s with
  | c :: r =>
    if c.val = 123 then
      match parseMembers (r.length + 1) r with
      | some (ms, rest) => if skipWs rest = [] then some ms else none
      | none => none
    else none
  | [] => none

/-- Read a string field. -/
def getStr (ms : List (Str × JVal)) (k : Str) : Option Str :=
  match ms.lookup k with
  | some (.jstr s) => some s
  | _ => none

/-- Read the number field. -/
def getNum (ms : List (Str × JVal)) (k : Str) : Option ℚ :=
  match ms.lookup k with
  | some (.jnum q) => some q
  | _ => none

/-- Deserialisation: `JSON.parse` (modelled by `jsonParseObj`) followed by
reading the ten fields back into a record. -/
def recordFromJSON (s : Str) : Option TicketRecord := do
  let ms ← jsonParseObj s
  let ticketId ← getStr ms (("ticketId").data)
  let fromAddr ← getStr ms (("from").data)
  let subject ← getStr ms (("subject").data)
  let body ← getStr ms (("body").data)
  let category ← getStr ms (("category").data)
  let categoryLabel ← getStr ms (("categoryLabel").data)
  let priority ← getStr ms (("priority").data)
  let confidence ← getNum ms (("confidence").data)
  let timestamp ← getStr ms (("timestamp").data)
  let insights ← getStr ms (("insights").data)
  pure ⟨ticketId, fromAddr, subject, body, category, categoryLabel, priority,
    confidence, timestamp, insights⟩

/-- The confidence values `classifyIssue` can produce. -/
def confSet : List ℚ := [0, 3/20, 3/10, 9/20, 3/5, 3/4, 9/10, 1]

example : classifyIssue ("printer".data) =
    ⟨"printer_issue".data, 3/10, ("medium").data⟩ :=
  of_decide_eq_true (by with_unfolding_all rfl)
example : classifyIssue ("prinjamter".data) = otherFloor :=
  of_decide_eq_true (by with_unfolding_all rfl)
example : classifyIssue [] = otherZero :=
  of_decide_eq_true (by with_unfolding_all rfl)
example : hasUrgency ("this is URGENT".data) = true := by decide

example :
    extractFrom (("From: john@company.com\nSubject: x").data) =
      ("john@company.com").data := by decide
example :
    extractFrom (("From: John Doe <j@d.com>\nbody").data) =
      ("John Doe <j@d.com>").data := by decide
example : extractFrom (("no address here").data) = ("Unknown Sender").data := by decide
example : extractFrom (("write to bob@corp.example please").data) =
    ("bob@corp.example").data := by decide
example :
    extractSubject (("From: a@b.cd\nSubject: Hello there\n\nBody").data) =
      ("Hello there").data := by decide
example : extractSubject (("Just a line\nmore").data) = ("Just a line").data := by decide
example : extractSubject (("From: x@y.zw").data) = ("No Subject").data := by decide
example :
    extractBody (("From: a@b.cd\nSubject: s\n\nHello world\n-- \nJohn Doe\nCEO").data) =
      ("Hello world").data := by decide
example : extractBody (("Thanks\nJohn").data) = ("Thanks\nJohn").data := by decide
example :
    extractBody (("Subject: s\n\nPlease fix\nThanks,\nBob").data) =
      ("Please fix").data := by decide

/-! ### Characterisation of the classification loop -/

lemma maxScoreL_nil (t : Str) : maxScoreL t [] = 0 := rfl

lemma maxScoreL_cons (t : Str) (c : CategoryDef) (l : List CategoryDef) :
    maxScoreL t (c :: l) = max (scoreOf t c) (maxScoreL t l) := rfl

lemma scoreOf_le_maxScoreL (t : Str) {c : CategoryDef} {l : List CategoryDef}
    (hc : c ∈ l) : scoreOf t c ≤ maxScoreL t l := by
  induction l with
  | nil => cases hc
  | cons c' l ih =>
    rw [maxScoreL_cons]
    rcases List.mem_cons.mp hc with rfl | hc
    · exact Nat.le_max_left _ _
    · exact Nat.le_trans (ih hc) (Nat.le_max_right _ _)

lemma bestFold_cons (lt : Str) (c : CategoryDef) (l : List CategoryDef)
    (acc : ClassificationResult × Nat) :
    bestFold lt (c :: l) acc =
      bestFold lt l
        (if acc.2 < matchCount lt c.keywords
         then (mkBest c (matchCount lt c.keywords), matchCount lt c.keywords)
         else acc) := rfl

/-- Full characterisation of the `classifyIssue` scoring loop: the running
maximum is the max of all scores, the initial `bestMatch` survives iff no
category strictly beats the incoming maximum, and otherwise the final
`bestMatch` is built from the first category attaining the overall maximum
(all categories before it score strictly less). -/
lemma bestFold_correct (t : Str) :
    ∀ (l : List CategoryDef) (b : ClassificationResult) (m : Nat),
      (bestFold (lowerStr (t.take 5000)) l (b, m)).2 = max m (maxScoreL t l) ∧
      (maxScoreL t l ≤ m → (bestFold (lowerStr (t.take 5000)) l (b, m)).1 = b) ∧
      (m < maxScoreL t l →
        ∃ l₁ c l₂, l = l₁ ++ c :: l₂ ∧ scoreOf t c = maxScoreL t l ∧
          (∀ c' ∈ l₁, scoreOf t c' < maxScoreL t l) ∧
          (bestFold (lowerStr (t.take 5000)) l (b, m)).1 = mkBest c (scoreOf t c)) := by
  intro l
  induction l with
  | nil =>
    intro b m
    refine ⟨?_, fun _ => rfl, fun h => absurd h (by simp [maxScoreL_nil])⟩
    show (bestFold (lowerStr (t.take 5000)) [] (b, m)).2 = max m (maxScoreL t [])
    rw [maxScoreL_nil]
    show m = max m 0
    omega
  | cons c l ih =>
    intro b m
    have hsc : matchCount (lowerStr (t.take 5000)) c.keywords = scoreOf t c := rfl
    rw [bestFold_cons, hsc, maxScoreL_cons]
    by_cases hlt : m < scoreOf t c
    · simp only [if_pos hlt]
      obtain ⟨ih1, ih2, ih3⟩ := ih (mkBest c (scoreOf t c)) (scoreOf t c)
      refine ⟨?_, fun h => absurd (le_trans (Nat.le_max_left _ _) h) (not_le.mpr hlt),
        fun _ => ?_⟩
      · rw [ih1]
        exact (Nat.max_eq_right (le_trans (le_of_lt hlt) (Nat.le_max_left _ _))).symm
      by_cases hA : maxScoreL t l ≤ scoreOf t c
      · refine ⟨[], c, l, rfl, (Nat.max_eq_left hA).symm, by simp, ?_⟩
        rw [ih2 hA]
      · have hAgt : scoreOf t c < maxScoreL t l := not_le.mp hA
        obtain ⟨l₁, c₀, l₂, hsplit, hmax, hearlier, hval⟩ := ih3 hAgt
        have hmx : max (scoreOf t c) (maxScoreL t l) = maxScoreL t l :=
          Nat.max_eq_right (le_of_lt hAgt)
        refine ⟨c :: l₁, c₀, l₂, by simp [hsplit], by rw [hmx]; exact hmax,
          fun c' hc' => ?_, hval⟩
        rw [hmx]
        rcases List.mem_cons.mp hc' with rfl | hc'
        · exact hAgt
        · exact hearlier c' hc'
    · simp only [if_neg hlt]
      have hsm : scoreOf t c ≤ m := Nat.le_of_not_lt hlt
      obtain ⟨ih1, ih2, ih3⟩ := ih b m
      refine ⟨?_, fun h => ih2 (le_trans (Nat.le_max_right _ _) h), fun h => ?_⟩
      · rw [ih1]
        conv_rhs => rw [← Nat.max_assoc, Nat.max_eq_left hsm]
      have hmA : m < maxScoreL t l := by
        by_cases hAm : maxScoreL t l ≤ m
        · exact absurd (Nat.max_le.mpr ⟨hsm, hAm⟩) (not_le.mpr h)
        · exact not_le.mp hAm
      obtain ⟨l₁, c₀, l₂, hsplit, hmax, hearlier, hval⟩ := ih3 hmA
      have hmx : max (scoreOf t c) (maxScoreL t l) = maxScoreL t l :=
        Nat.max_eq_right (le_trans hsm (le_of_lt hmA))
      refine ⟨c :: l₁, c₀, l₂, by simp [hsplit], by rw [hmx]; exact hmax,
        fun c' hc' => ?_, hval⟩
      rw [hmx]
      rcases List.mem_cons.mp hc' with rfl | hc'
      · exact lt_of_le_of_lt hsm hmA
      · exact hearlier c' hc'

/-! ### Arithmetic facts about the confidence formula -/

lemma confOf_nonneg (m : Nat) : 0 ≤ confOf m := by
  unfold confOf
  positivity

lemma confOf_le_one (m : Nat) : confOf m ≤ 1 := min_le_right _ _

lemma confOf_lt_quarter {m : Nat} (h : m ≤ 1) : confOf m < 25/100 := by
  interval_cases m <;> norm_num [confOf]

lemma quarter_le_confOf {m : Nat} (h : 2 ≤ m) : 25/100 ≤ confOf m := by
  unfold confOf
  refine le_min ?_ (by norm_num)
  have : (2 : ℚ) ≤ (m : ℚ) := by exact_mod_cast h
  nlinarith

lemma confOf_mono {m n : Nat} (h : m ≤ n) : confOf m ≤ confOf n := by
  unfold confOf
  refine min_le_min (mul_le_mul_of_nonneg_right ?_ (by norm_num)) le_rfl
  exact_mod_cast h

lemma maxScoreOf_nil_eq : maxScoreOf [] = 0 := by decide

lemma maxScoreOf_def (t : Str) : maxScoreOf t = maxScoreL t categories := rfl

lemma classifyIssue_of_ne {t : Str} (h0 : t ≠ []) :
    classifyIssue t =
      (if ((bestFold (lowerStr (t.take 5000)) categories (otherZero, 0)).1).confidence < 25/100
       then otherFloor
       else (bestFold (lowerStr (t.take 5000)) categories (otherZero, 0)).1) := by
  rw [classifyIssue, if_neg h0]

/-- `classifyIssue` hits the low-confidence floor whenever no category has
two keyword matches (nonempty input). -/
lemma classify_floor {t : Str} (h0 : t ≠ []) (h : maxScoreOf t ≤ 1) :
    classifyIssue t = otherFloor := by
  rw [classifyIssue_of_ne h0]
  rw [maxScoreOf_def] at h
  obtain ⟨_, h2, h3⟩ := bestFold_correct t categories otherZero 0
  by_cases hz : maxScoreL t categories = 0
  · rw [h2 (by omega)]
    rw [if_pos (by norm_num [otherZero])]
  · obtain ⟨l₁, c, l₂, _, hmax, _, hval⟩ := h3 (by omega)
    rw [hval]
    have hsle : scoreOf t c ≤ 1 := by omega
    rw [if_pos (by simpa [mkBest] using confOf_lt_quarter hsle)]

/-- For nonempty input whose best score is at least 2, `classifyIssue`
returns the loop's best match (the floor does not fire), and that match is
the first category attaining the maximal score. -/
lemma classify_best {t : Str} (h : 2 ≤ maxScoreOf t) :
    ∃ l₁ c l₂, categories = l₁ ++ c :: l₂ ∧ scoreOf t c = maxScoreOf t ∧
      (∀ c' ∈ l₁, scoreOf t c' < maxScoreOf t) ∧
      classifyIssue t = mkBest c (scoreOf t c) := by
  have h0 : t ≠ [] := by
    intro he
    rw [he, maxScoreOf_nil_eq] at h
    omega
  rw [maxScoreOf_def] at h ⊢
  obtain ⟨_, _, h3⟩ := bestFold_correct t categories otherZero 0
  obtain ⟨l₁, c, l₂, hsplit, hmax, hearlier, hval⟩ := h3 (by omega)
  refine ⟨l₁, c, l₂, hsplit, hmax, hearlier, ?_⟩
  rw [classifyIssue_of_ne h0, hval]
  have hnc : ¬ ((mkBest c (scoreOf t c)).confidence < 25/100) := by
    simp only [mkBest]
    exact not_lt.mpr (quarter_le_confOf (m := scoreOf t c) (by omega))
  rw [if_neg hnc]

lemma categories_priority_mem :
    ∀ c ∈ categories, c.priority = ("low").data ∨ c.priority = ("medium").data ∨
      c.priority = ("high").data := by decide

/-- Every classification `classifyIssue` produces carries one of the three
configured default priorities (never `"urgent"`). -/
lemma classify_priority (t : Str) :
    (classifyIssue t).priority = ("low").data ∨
    (classifyIssue t).priority = ("medium").data ∨
    (classifyIssue t).priority = ("high").data := by
  by_cases h0 : t = []
  · subst h0
    right; left; rfl
  by_cases h1 : maxScoreOf t ≤ 1
  · rw [classify_floor h0 h1]
    right; left; rfl
  · obtain ⟨l₁, c, l₂, hsplit, _, _, hcl⟩ := classify_best (t := t) (by omega)
    rw [hcl]
    have hc : c ∈ categories := by
      rw [hsplit]
      exact List.mem_append_right _ (List.mem_cons_self _ _)
    rcases categories_priority_mem c hc with h | h | h <;>
      · simp only [mkBest]
        rw [h]
        decide

/-- The confidence `classifyIssue` reports always lies in `[0, 1]`. -/
lemma classify_conf_bounds (t : Str) :
    0 ≤ (classifyIssue t).confidence ∧ (classifyIssue t).confidence ≤ 1 := by
  by_cases h0 : t = []
  · subst h0
    rw [show classifyIssue [] = otherZero from rfl]
    constructor <;> norm_num [otherZero]
  by_cases h1 : maxScoreOf t ≤ 1
  · rw [classify_floor h0 h1]
    constructor <;> norm_num [otherFloor]
  · obtain ⟨_, c, _, _, _, _, hcl⟩ := classify_best (t := t) (by omega)
    rw [hcl]
    simp only [mkBest]
    exact ⟨confOf_nonneg _, confOf_le_one _⟩

/-! ### Claim C2 -/

/-- C2 is false as stated for the empty string: its best score is below 2,
yet `classifyIssue` returns confidence 0 through the empty-input guard,
not the 0.15 floor result. -/
theorem C2_counterexample :
    maxScoreOf [] < 2 ∧ classifyIssue [] = otherZero ∧ classifyIssue [] ≠ otherFloor := by
  refine ⟨by decide, rfl, fun h => ?_⟩
  have h2 : otherZero = otherFloor := h
  have := congrArg ClassificationResult.confidence h2
  norm_num [otherZero, otherFloor] at this

/-- C2 (amended to nonempty string inputs): whenever the best-scoring
category has fewer than 2 keyword matches, `classifyIssue` returns
category `other` with confidence exactly 0.15 and priority `medium`. -/
theorem C2_low_confidence_floor (t : Str) (h0 : t ≠ []) (h : maxScoreOf t < 2) :
    classifyIssue t = otherFloor :=
  classify_floor h0 (by omega)

theorem C2_low_confidence_floor_witness :
    (("zzzz").data ≠ ([] : Str) ∧ maxScoreOf (("zzzz").data) < 2) ∧
      classifyIssue (("zzzz").data) = otherFloor :=
  ⟨⟨by decide, by decide⟩,
    C2_low_confidence_floor (("zzzz").data) (by decide) (by decide)⟩

/-! ### Claim C3 -/

/-- C3 is false as stated: `determinePriority` also returns `"urgent"` when
the classification argument itself carries priority `"urgent"`, even though
the text contains no urgency keyword, refuting the claimed "only if". -/
theorem C3_counterexample :
    hasUrgency (("hello").data) = false ∧
      determinePriority (("hello").data) ⟨"other".data, 0, ("urgent").data⟩ =
        ("urgent").data := by
  constructor
  · decide
  · rfl

/-- C3 (amended to classifications whose own default priority is not
`"urgent"`, which covers everything `classifyIssue` produces, by
`classify_priority`): `determinePriority` returns `"urgent"` iff an urgency
keyword occurs as a substring of the lower-cased text; when none occurs it
returns the classification's default priority, with `"medium"` substituted
for an absent (empty) one. -/
theorem C3_urgency_override (t : Str) (c : ClassificationResult)
    (hc : c.priority ≠ ("urgent").data) :
    (determinePriority t c = ("urgent").data ↔ hasUrgency t = true) ∧
      (hasUrgency t = false →
        determinePriority t c =
          (if c.priority = [] then ("medium").data else c.priority)) := by
  cases h : hasUrgency t with
  | true =>
    rw [determinePriority, if_pos h]
    exact ⟨⟨fun _ => rfl, fun _ => rfl⟩, fun hf => absurd hf (by decide)⟩
  | false =>
    rw [determinePriority, if_neg (by simp [h])]
    refine ⟨⟨fun he => ?_, fun htrue => absurd htrue (by decide)⟩, fun _ => rfl⟩
    by_cases hp : c.priority = []
    · rw [if_pos hp] at he
      exact absurd he (by decide)
    · rw [if_neg hp] at he
      exact absurd he hc

theorem C3_urgency_override_witness :
    ((⟨"other".data, 0, ("medium").data⟩ : ClassificationResult).priority ≠
        ("urgent").data) ∧
      ((determinePriority (("hello").data) ⟨"other".data, 0, ("medium").data⟩ =
          ("urgent").data ↔ hasUrgency (("hello").data) = true) ∧
        (hasUrgency (("hello").data) = false →
          determinePriority (("hello").data) ⟨"other".data, 0, ("medium").data⟩ =
            (if (⟨"other".data, 0, ("medium").data⟩ : ClassificationResult).priority = []
             then ("medium").data
             else (⟨"other".data, 0, ("medium").data⟩ : ClassificationResult).priority))) :=
  ⟨by decide,
    C3_urgency_override (("hello").data) ⟨"other".data, 0, ("medium").data⟩ (by decide)⟩

/-! ### Claim C6 -/

/-- C6: `classifyIssue` selects the category with the strictly highest
keyword-match score; on ties the first-seen category in the fixed
configuration order wins.  Concretely: whenever some category matches at
all, there is a decomposition of the configuration in which the winner
attains the maximal score, every earlier category scores strictly less,
no category scores more, the scoring loop returns exactly that winner, and
(once the winner clears the confidence floor, i.e. scores at least 2)
`classifyIssue` returns it. -/
theorem C6_first_argmax (t : Str) (h : 1 ≤ maxScoreOf t) :
    ∃ l₁ c l₂, categories = l₁ ++ c :: l₂ ∧
      scoreOf t c = maxScoreOf t ∧
      (∀ c' ∈ l₁, scoreOf t c' < scoreOf t c) ∧
      (∀ c' ∈ categories, scoreOf t c' ≤ scoreOf t c) ∧
      (bestFold (lowerStr (t.take 5000)) categories (otherZero, 0)).1 =
        mkBest c (scoreOf t c) ∧
      (2 ≤ maxScoreOf t → classifyIssue t = mkBest c (scoreOf t c)) := by
  have h0 : t ≠ [] := by
    intro he
    rw [he, maxScoreOf_nil_eq] at h
    omega
  obtain ⟨_, _, h3⟩ := bestFold_correct t categories otherZero 0
  rw [maxScoreOf_def] at h
  obtain ⟨l₁, c, l₂, hsplit, hmax, hearlier, hval⟩ := h3 (by omega)
  refine ⟨l₁, c, l₂, hsplit, hmax, ?_, ?_, hval, ?_⟩
  · intro c' hc'
    rw [hmax]
    exact hearlier c' hc'
  · intro c' hc'
    rw [hmax]
    exact scoreOf_le_maxScoreL t hc'
  · intro h2
    rw [maxScoreOf_def] at h2
    rw [classifyIssue_of_ne h0, hval]
    have hnc : ¬ ((mkBest c (scoreOf t c)).confidence < 25/100) := by
      simp only [mkBest]
      exact not_lt.mpr (quarter_le_confOf (m := scoreOf t c) (by omega))
    rw [if_neg hnc]

theorem C6_first_argmax_witness :
    (1 ≤ maxScoreOf (("printer wifi network").data)) ∧
      (∃ l₁ c l₂, categories = l₁ ++ c :: l₂ ∧
        scoreOf (("printer wifi network").data) c =
          maxScoreOf (("printer wifi network").data) ∧
        (∀ c' ∈ l₁, scoreOf (("printer wifi network").data) c' <
          scoreOf (("printer wifi network").data) c) ∧
        (∀ c' ∈ categories, scoreOf (("printer wifi network").data) c' ≤
          scoreOf (("printer wifi network").data) c) ∧
        (bestFold (lowerStr ((("printer wifi network").data).take 5000)) categories
            (otherZero, 0)).1 =
          mkBest c (scoreOf (("printer wifi network").data) c) ∧
        (2 ≤ maxScoreOf (("printer wifi network").data) →
          classifyIssue (("printer wifi network").data) =
            mkBest c (scoreOf (("printer wifi network").data) c))) :=
  ⟨by decide, C6_first_argmax (("printer wifi network").data) (by decide)⟩

/-! ### Claim C5 -/

/-- C5 is false as stated: inserting the `printer_issue` keyword `"jam"`
into the middle of `"printer"` (at position 4) destroys the
`"printer"`/`"print"` matches, so that category's confidence drops from
0.3 to 0.15, and the classification falls to the `other` floor. -/
theorem C5_counterexample :
    ∃ c ∈ categories, c.name = "printer_issue".data ∧ ("jam").data ∈ c.keywords ∧
      ("prinjamter").data =
        (("printer").data).take 4 ++ ("jam").data ++ (("printer").data).drop 4 ∧
      confFor (("prinjamter").data) c < confFor (("printer").data) c ∧
      classifyIssue (("printer").data) = ⟨c.name, 3/10, ("medium").data⟩ ∧
      classifyIssue (("prinjamter").data) = otherFloor := by
  refine ⟨categories.get ⟨2, by decide⟩, List.get_mem _ _ _, by decide, by decide,
    by decide, ?_, ?_, ?_⟩
  · exact of_decide_eq_true (by with_unfolding_all rfl)
  · exact of_decide_eq_true (by with_unfolding_all rfl)
  · exact of_decide_eq_true (by with_unfolding_all rfl)

/-- C5 (amended: the additional keyword occurrence is appended to the text
rather than inserted at an arbitrary interior position): appending an
occurrence of one of a category's keywords never decreases that category's
confidence (saturating at 1.0 by definition of `confOf`). -/
theorem C5_append_monotone (t k : Str) (c : CategoryDef)
    (hc : c ∈ categories) (hk : k ∈ c.keywords) :
    confFor t c ≤ confFor (t ++ k) c := by
  apply confOf_mono
  unfold scoreOf matchCount
  apply List.countP_mono_left
  intro kw _ hkw
  unfold containsSubstr at hkw ⊢
  simp only [decide_eq_true_eq] at hkw ⊢
  have hsplit : (t ++ k).take 5000 = t.take 5000 ++ k.take (5000 - t.length) :=
    List.take_append_eq_append_take
  rw [hsplit]
  unfold lowerStr
  rw [List.map_append]
  exact hkw.trans ⟨[], List.map Char.toLower (List.take (5000 - t.length) k), by simp [lowerStr]⟩

theorem C5_append_monotone_witness :
    (categories.get ⟨2, by decide⟩ ∈ categories ∧
        ("jam").data ∈ (categories.get ⟨2, by decide⟩).keywords) ∧
      confFor (("printer").data) (categories.get ⟨2, by decide⟩) ≤
        confFor (("printer").data ++ ("jam").data) (categories.get ⟨2, by decide⟩) :=
  ⟨⟨List.get_mem _ _ _, by decide⟩,
    C5_append_monotone (("printer").data) (("jam").data) _ (List.get_mem _ _ _) (by decide)⟩

/-! ### Claim C9 -/

/-- C9: `classifyIssue` only ever examines the first 5000 characters — it
returns the same classification on any text and on its 5000-character
prefix. -/
theorem C9_limit_5000 (t : Str) : classifyIssue t = classifyIssue (t.take 5000) := by
  by_cases h0 : t = []
  · subst h0
    rfl
  · have h0' : t.take 5000 ≠ [] := by
      simp [List.take_eq_nil_iff, h0]
    rw [classifyIssue_of_ne h0, classifyIssue_of_ne h0']
    simp [List.take_take]

/-! ### Claim C10 -/

/-- C10: on the empty string or a non-string value (modelled as `none`),
`classifyIssue` takes the early validation branch and returns category
`other` with confidence exactly 0 — not the 0.15 floor — and priority
`medium`. -/
theorem C10_empty_or_nonstring :
    classifyIssueDyn none = otherZero ∧ classifyIssueDyn (some []) = otherZero ∧
      classifyIssue [] = otherZero ∧ otherZero.confidence = 0 ∧
      otherZero.name = "other".data ∧ otherZero.priority = ("medium").data ∧
      otherZero ≠ otherFloor := by
  refine ⟨rfl, rfl, rfl, rfl, rfl, rfl, fun h => ?_⟩
  have := congrArg ClassificationResult.confidence h
  norm_num [otherZero, otherFloor] at this

/-! ### Trimming and body-extraction lemmas -/

lemma dropWhile_eq_self_of_all {p : Char → Bool} {l : Str}
    (h : ∀ c ∈ l, p c = false) : l.dropWhile p = l := by
  cases l with
  | nil => rfl
  | cons c rest =>
    rw [List.dropWhile_cons]
    simp [h c (List.mem_cons_self c rest)]

lemma dropWhile_length_le (p : Char → Bool) (l : Str) :
    (l.dropWhile p).length ≤ l.length := by
  induction l with
  | nil => simp
  | cons c rest ih =>
    rw [List.dropWhile_cons]
    split
    · exact le_trans ih (Nat.le_succ _)
    · simp

lemma trimChars_of_all_not_ws {s : Str} (h : ∀ c ∈ s, wsChar c = false) :
    trimChars s = s := by
  unfold trimChars
  rw [dropWhile_eq_self_of_all h,
    dropWhile_eq_self_of_all (fun c hc => h c (List.mem_reverse.mp hc)),
    List.reverse_reverse]

lemma trimChars_length_le (s : Str) : (trimChars s).length ≤ s.length := by
  unfold trimChars
  rw [List.length_reverse]
  calc ((s.dropWhile wsChar).reverse.dropWhile wsChar).length
      ≤ (s.dropWhile wsChar).reverse.length := dropWhile_length_le _ _
    _ = (s.dropWhile wsChar).length := List.length_reverse _
    _ ≤ s.length := dropWhile_length_le _ _

lemma trimChars_eq_nil_iff {s : Str} : trimChars s = [] ↔ ∀ c ∈ s, wsChar c = true := by
  unfold trimChars
  rw [List.reverse_eq_nil_iff, List.dropWhile_eq_nil_iff]
  constructor
  · intro h c hc
    rw [← List.takeWhile_append_dropWhile (p := wsChar) (l := s)] at hc
    rcases List.mem_append.mp hc with h1 | h1
    · exact List.mem_takeWhile_imp h1
    · exact h c (List.mem_reverse.mpr h1)
  · intro h x hx
    apply h
    rw [← List.takeWhile_append_dropWhile (p := wsChar) (l := s)]
    exact List.mem_append_right _ (List.mem_reverse.mp hx)

lemma intercalate_cons_head (sep a : Str) (rest : List Str) :
    ∃ u, List.intercalate sep (a :: rest) = a ++ u := by
  cases rest with
  | nil => exact ⟨[], by simp [List.intercalate, List.intersperse]⟩
  | cons b rs =>
    refine ⟨sep ++ List.intercalate sep (b :: rs), ?_⟩
    simp [List.intercalate, List.intersperse]

lemma findFirstIdx_drop {p : Str → Bool} :
    ∀ {lines : List Str} {i : Nat}, findFirstIdx p lines = some i →
      ∃ l rest, lines.drop i = l :: rest ∧ p l = true := by
  intro lines
  induction lines with
  | nil => intro i h; cases h
  | cons l rest ih =>
    intro i h
    rw [findFirstIdx] at h
    by_cases hp : p l
    · rw [if_pos hp] at h
      cases h
      exact ⟨l, rest, rfl, hp⟩
    · rw [if_neg hp] at h
      cases hfr : findFirstIdx p rest with
      | none => rw [hfr] at h; cases h
      | some j =>
        rw [hfr] at h
        have h2 : j + 1 = i := by simpa using h
        obtain ⟨l2, rest2, hd, hp2⟩ := ih hfr
        refine ⟨l2, rest2, ?_, hp2⟩
        rw [← h2]
        simpa [List.drop_succ_cons] using hd

lemma dropWhile_head_false {p : Char → Bool} :
    ∀ {l : Str} {c : Char} {rest : Str}, l.dropWhile p = c :: rest → p c = false := by
  intro l
  induction l with
  | nil => intro c rest h; cases h
  | cons a as ih =>
    intro c rest h
    rw [List.dropWhile_cons] at h
    split at h
    · exact ih h
    · cases h
      rename_i hp
      cases hpa : p a
      · rfl
      · exact absurd hpa hp

/-- A nonempty trimmed string contains a non-whitespace character (its
head). -/
lemma exists_not_ws_of_trim_ne {t : Str} (h : trimChars t ≠ []) :
    ∃ c ∈ trimChars t, wsChar c = false := by
  have hT : trimChars t = ((t.dropWhile wsChar).reverse.dropWhile wsChar).reverse := rfl
  have hne : (t.dropWhile wsChar).reverse.dropWhile wsChar ≠ [] := by
    intro h0
    apply h
    rw [hT, h0]
    rfl
  obtain ⟨c, rest, hcr⟩ := List.exists_cons_of_ne_nil hne
  refine ⟨c, ?_, dropWhile_head_false hcr⟩
  rw [hT, hcr]
  exact List.mem_reverse.mpr (List.mem_cons_self _ _)

/-- Trimming an already-trimmed nonempty string leaves it nonempty. -/
lemma trimChars_trimChars_ne {t : Str} (h : trimChars t ≠ []) :
    trimChars (trimChars t) ≠ [] := by
  obtain ⟨c, hc, hw⟩ := exists_not_ws_of_trim_ne h
  intro h0
  have h1 := trimChars_eq_nil_iff.mp h0 c hc
  rw [hw] at h1
  exact absurd h1 (by decide)

lemma rawBodyOf_ne_nil {text : Str} (h : trimChars text ≠ []) :
    rawBodyOf text ≠ [] := by
  simp only [rawBodyOf]
  cases hf : findFirstIdx bodyStartPred (splitNl text) with
  | none =>
    rw [show findBodyStart (splitNl text) = 0 from by rw [findBodyStart, hf]; rfl,
      List.drop_zero]
    show trimChars (List.intercalate ['\n'] (text.splitOn '\n')) ≠ []
    rw [List.intercalate_splitOn]
    exact h
  | some i =>
    rw [show findBodyStart (splitNl text) = i from by rw [findBodyStart, hf]; rfl]
    obtain ⟨l, rest, hdrop, hp⟩ := findFirstIdx_drop hf
    rw [hdrop]
    have htl : trimChars l ≠ [] := by
      rw [bodyStartPred] at hp
      have h2 := (Bool.and_eq_true _ _).mp hp |>.2
      simp only [Bool.not_eq_true] at h2
      intro hnil
      rw [hnil] at h2
      simp at h2
    have hex : ∃ c ∈ l, ¬ (wsChar c = true) := by
      by_contra hall
      push_neg at hall
      exact htl (trimChars_eq_nil_iff.mpr hall)
    obtain ⟨c, hc, hw⟩ := hex
    intro hnil
    obtain ⟨u, hu⟩ := intercalate_cons_head ['\n'] l rest
    have hmem : c ∈ List.intercalate ['\n'] (l :: rest) := by
      rw [hu]
      exact List.mem_append_left _ hc
    exact hw (trimChars_eq_nil_iff.mp hnil c hmem)

lemma extractBody_ne_nil {text : Str} (h : trimChars text ≠ []) :
    extractBody text ≠ [] := by
  rw [extractBody]
  by_cases hs : strippedTrimOf text = []
  · rw [if_pos hs]
    exact rawBodyOf_ne_nil h
  · rw [if_neg hs]
    exact hs

/-- On valid input (nonempty after trimming, trimmed length within bounds),
`parse` succeeds and returns the assembled record. -/
lemma parse_ok_of_valid (ε : Entropy) {t : Str} (h1 : trimChars t ≠ [])
    (h2 : (trimChars t).length ≤ 100000) :
    parse ε t = .ok (assembledRecord ε (trimChars t)) := by
  have h0 : t ≠ [] := by
    rintro rfl
    exact h1 rfl
  simp only [parse]
  rw [if_neg h0, if_neg h1, if_neg (by omega : ¬ 100000 < (trimChars t).length),
    if_neg (extractBody_ne_nil (trimChars_trimChars_ne h1))]
  rfl

lemma determinePriority_classify_mem (text t2 : Str) :
    determinePriority text (classifyIssue t2) = ("low").data ∨
    determinePriority text (classifyIssue t2) = ("medium").data ∨
    determinePriority text (classifyIssue t2) = ("high").data ∨
    determinePriority text (classifyIssue t2) = ("urgent").data := by
  rw [determinePriority]
  by_cases h : hasUrgency text
  · rw [if_pos h]
    right; right; right; rfl
  · rw [if_neg h]
    rcases classify_priority t2 with hp | hp | hp <;> rw [hp]
    · left; decide
    · right; left; decide
    · right; right; left; decide

/-! ### Claim C1 -/

/-- C1: for every valid input (non-whitespace after trimming, at most
100,000 characters), `parse` succeeds and returns a record whose
confidence lies in `[0, 1]` and whose priority is one of the four
enumerated levels. -/
theorem C1_parse_invariants (ε : Entropy) (t : Str) (h1 : trimChars t ≠ [])
    (h2 : t.length ≤ 100000) :
    ∃ r, parse ε t = .ok r ∧ 0 ≤ r.confidence ∧ r.confidence ≤ 1 ∧
      (r.priority = ("low").data ∨ r.priority = ("medium").data ∨
       r.priority = ("high").data ∨ r.priority = ("urgent").data) := by
  have h2a : (trimChars t).length ≤ 100000 := le_trans (trimChars_length_le t) h2
  refine ⟨_, parse_ok_of_valid ε h1 h2a, ?_, ?_, ?_⟩
  · show 0 ≤ (classifyIssue (combinedText (trimChars t))).confidence
    exact (classify_conf_bounds _).1
  · show (classifyIssue (combinedText (trimChars t))).confidence ≤ 1
    exact (classify_conf_bounds _).2
  · show determinePriority (combinedText (trimChars t))
        (classifyIssue (combinedText (trimChars t))) = ("low").data ∨ _ ∨ _ ∨ _
    exact determinePriority_classify_mem _ _

theorem C1_parse_invariants_witness :
    (trimChars (("Printer is broken, please fix").data) ≠ [] ∧
      (("Printer is broken, please fix").data : Str).length ≤ 100000) ∧
      (∃ r, parse ⟨("TKT-1").data, ("2026-01-01").data⟩
          (("Printer is broken, please fix").data) = .ok r ∧
        0 ≤ r.confidence ∧ r.confidence ≤ 1 ∧
        (r.priority = ("low").data ∨ r.priority = ("medium").data ∨
         r.priority = ("high").data ∨ r.priority = ("urgent").data)) :=
  ⟨⟨by decide, by decide⟩,
    C1_parse_invariants ⟨("TKT-1").data, ("2026-01-01").data⟩
      (("Printer is broken, please fix").data) (by decide) (by decide)⟩

/-! ### Claim C4 -/

/-- C4: `parse` accepts an input of exactly 100,000 characters, rejects one
of 100,001 characters with the `InvalidInput` size failure, and rejects
empty or whitespace-only input with an `InvalidInput` failure before any
extraction runs. -/
theorem C4_size_boundaries (ε : Entropy) :
    (∃ r, parse ε (List.replicate 100000 'a') = .ok r) ∧
    parse ε (List.replicate 100001 'a') =
      .error (.invalidInput (("Email text too large (max 100KB)").data)) ∧
    (∀ t : Str, (∀ c ∈ t, wsChar c = true) →
      parse ε t = .error (.invalidInput
        (if t = [] then ("Email text must be a non-empty string").data
         else ("Email text cannot be empty").data))) := by
  refine ⟨?_, ?_, ?_⟩
  · have hall : ∀ c ∈ List.replicate 100000 'a', wsChar c = false := by
      intro c hc
      rw [List.eq_of_mem_replicate hc]
      decide
    have htr := trimChars_of_all_not_ws hall
    refine ⟨_, parse_ok_of_valid ε ?_ ?_⟩
    · rw [htr]
      exact List.length_pos.mp (by rw [List.length_replicate]; omega)
    · rw [htr, List.length_replicate]
  · have hall : ∀ c ∈ List.replicate 100001 'a', wsChar c = false := by
      intro c hc
      rw [List.eq_of_mem_replicate hc]
      decide
    have htr := trimChars_of_all_not_ws hall
    have h0 : List.replicate 100001 'a' ≠ [] :=
      List.length_pos.mp (by rw [List.length_replicate]; omega)
    simp only [parse]
    rw [if_neg h0, if_neg (by rw [htr]; exact h0),
      if_pos (by rw [htr, List.length_replicate]; omega)]
    rfl
  · intro t hws
    by_cases h0 : t = []
    · subst h0
      rw [if_pos rfl]
      rfl
    · rw [if_neg h0]
      have htr : trimChars t = [] := trimChars_eq_nil_iff.mpr hws
      simp only [parse]
      rw [if_neg h0, if_pos htr]
      rfl

theorem C4_size_boundaries_witness :
    (∀ c ∈ (("  ").data : Str), wsChar c = true) ∧
      parse ⟨[], []⟩ (("  ").data) =
        .error (.invalidInput (("Email text cannot be empty").data)) := by
  refine ⟨by decide, ?_⟩
  have h := (C4_size_boundaries ⟨[], []⟩).2.2 (("  ").data) (by decide)
  rw [if_neg (by decide)] at h
  exact h

/-! ### Claim C7 -/

/-- C7: when sign-off stripping leaves the empty string, `extractBody`
falls back to the raw (unstripped) body; and `parse` fails with an
extraction failure exactly when the input passes validation and the final
`extractBody` result has zero length. -/
theorem C7_empty_strip_fallback (ε : Entropy) (t : Str) :
    (strippedTrimOf t = [] → extractBody t = rawBodyOf t) ∧
    ((∃ m, parse ε t = .error (.extractionFailure m)) ↔
      (trimChars t ≠ [] ∧ (trimChars t).length ≤ 100000 ∧
        extractBody (trimChars t) = [])) := by
  refine ⟨fun h => by rw [extractBody, if_pos h], ?_, ?_⟩
  · rintro ⟨m, hm⟩
    by_cases h0 : t = []
    · subst h0
      rw [show parse ε [] = Except.error (ParseError.invalidInput
        (("Email text must be a non-empty string").data)) from rfl] at hm
      simp at hm
    by_cases h1 : trimChars t = []
    · simp only [parse] at hm
      rw [if_neg h0, if_pos h1] at hm
      simp [sanitizeErr, sanitizeMsg] at hm
    by_cases h2 : 100000 < (trimChars t).length
    · simp only [parse] at hm
      rw [if_neg h0, if_neg h1, if_pos h2] at hm
      simp [sanitizeErr, sanitizeMsg] at hm
    by_cases h3 : extractBody (trimChars t) = []
    · exact ⟨h1, by omega, h3⟩
    · rw [parse_ok_of_valid ε h1 (by omega)] at hm
      simp at hm
  · rintro ⟨h1, h2, h3⟩
    have h0 : t ≠ [] := by
      rintro rfl
      exact h1 rfl
    refine ⟨("Could not extract email body").data, ?_⟩
    simp only [parse]
    rw [if_neg h0, if_neg h1, if_neg (by omega), if_pos h3]
    rfl

theorem C7_empty_strip_fallback_witness :
    strippedTrimOf (("Thanks\nJohn").data) = [] ∧
      extractBody (("Thanks\nJohn").data) = rawBodyOf (("Thanks\nJohn").data) :=
  ⟨by decide,
    (C7_empty_strip_fallback ⟨[], []⟩ (("Thanks\nJohn").data)).1 (by decide)⟩

/-! ### Round-trip of the structured export -/

lemma escapeString_nil : escapeString [] = [] := rfl

lemma escapeString_cons (c : Char) (cs : Str) :
    escapeString (c :: cs) = escapeChar c ++ escapeString cs := by
  simp [escapeString]

lemma char_toNat_of_val {c : Char} {n : UInt32} (h : c.val = n) :
    c.toNat = n.toNat := by
  show c.val.toNat = n.toNat
  rw [h]

lemma char_eq_ofNat {c : Char} {m : Nat} (h : c.toNat = m) : c = Char.ofNat m := by
  rw [← h, Char.ofNat_toNat]

lemma hexVal_hexDigit {n : Nat} (h : n < 16) : hexVal (hexDigit n) = some n := by
  interval_cases n <;> decide

lemma hexVal_zero : hexVal '0' = some 0 := by decide

/-- Parsing inverts escaping: the parser consumes exactly the escaped form
of `s` up to the closing quote. -/
lemma parseStringBody_escape :
    ∀ (s rest : Str),
      parseStringBody (escapeString s ++ Char.ofNat 34 :: rest) = some (s, rest) := by
  intro s
  induction s with
  | nil =>
    intro rest
    rw [escapeString_nil, List.nil_append, parseStringBody.eq_def]
    simp +decide
  | cons c cs ih =>
    intro rest
    rw [escapeString_cons, List.append_assoc]
    by_cases h34 : c.val = 34
    · have hc : c = Char.ofNat 34 := char_eq_ofNat (char_toNat_of_val h34)
      rw [escapeChar, if_pos h34]
      simp [parseStringBody, simpleEscape, ih, hc]
    by_cases hbk : c = '\\'
    · rw [escapeChar, if_neg h34, if_pos hbk]
      simp [parseStringBody, simpleEscape, ih, hbk]
    by_cases h8 : c.val = 8
    · have hc : c = Char.ofNat 8 := char_eq_ofNat (char_toNat_of_val h8)
      rw [escapeChar, if_neg h34, if_neg hbk, if_pos h8]
      simp [parseStringBody, simpleEscape, ih, hc]
    by_cases ht : c = '\t'
    · rw [escapeChar, if_neg h34, if_neg hbk, if_neg h8, if_pos ht]
      simp [parseStringBody, simpleEscape, ih, ht]
    by_cases hn : c = '\n'
    · rw [escapeChar, if_neg h34, if_neg hbk, if_neg h8, if_neg ht, if_pos hn]
      simp [parseStringBody, simpleEscape, ih, hn]
    by_cases h12 : c.val = 12
    · have hc : c = Char.ofNat 12 := char_eq_ofNat (char_toNat_of_val h12)
      rw [escapeChar, if_neg h34, if_neg hbk, if_neg h8, if_neg ht, if_neg hn,
        if_pos h12]
      simp [parseStringBody, simpleEscape, ih, hc]
    by_cases h13 : c.val = 13
    · have hc : c = Char.ofNat 13 := char_eq_ofNat (char_toNat_of_val h13)
      rw [escapeChar, if_neg h34, if_neg hbk, if_neg h8, if_neg ht, if_neg hn,
        if_neg h12, if_pos h13]
      simp [parseStringBody, simpleEscape, ih, hc]
    by_cases h32 : c.val < 32
    · rw [escapeChar, if_neg h34, if_neg hbk, if_neg h8, if_neg ht, if_neg hn,
        if_neg h12, if_neg h13, if_pos h32]
      have hlt : c.toNat < 32 := h32
      have hdiv : c.toNat / 16 < 16 := by omega
      have hmod : c.toNat % 16 < 16 := Nat.mod_lt _ (by omega)
      have harith : ((0 * 16 + 0) * 16 + c.toNat / 16) * 16 + c.toNat % 16 = c.toNat := by
        omega
      simp +decide [parseStringBody, hexVal_zero, hexVal_hexDigit hdiv,
        hexVal_hexDigit hmod, ih, harith, Char.ofNat_toNat]
      have harith2 : c.toNat / 16 * 16 + c.toNat % 16 = c.toNat := by omega
      rw [harith2, Char.ofNat_toNat]
    · rw [escapeChar, if_neg h34, if_neg hbk, if_neg h8, if_neg ht, if_neg hn,
        if_neg h12, if_neg h13, if_neg h32]
      simp only [List.cons_append, List.nil_append]
      rw [parseStringBody.eq_def]
      simp [h34, hbk, ih]

/-! ### Number rendering and parsing for the confidence values -/

lemma renderConf_0 : renderConf 0 = ['0'] :=
  of_decide_eq_true (by with_unfolding_all rfl)
lemma renderConf_015 : renderConf (3/20) = ['0', '.', '1', '5'] :=
  of_decide_eq_true (by with_unfolding_all rfl)
lemma renderConf_03 : renderConf (3/10) = ['0', '.', '3'] :=
  of_decide_eq_true (by with_unfolding_all rfl)
lemma renderConf_045 : renderConf (9/20) = ['0', '.', '4', '5'] :=
  of_decide_eq_true (by with_unfolding_all rfl)
lemma renderConf_06 : renderConf (3/5) = ['0', '.', '6'] :=
  of_decide_eq_true (by with_unfolding_all rfl)
lemma renderConf_075 : renderConf (3/4) = ['0', '.', '7', '5'] :=
  of_decide_eq_true (by with_unfolding_all rfl)
lemma renderConf_09 : renderConf (9/10) = ['0', '.', '9'] :=
  of_decide_eq_true (by with_unfolding_all rfl)
lemma renderConf_1 : renderConf 1 = ['1'] :=
  of_decide_eq_true (by with_unfolding_all rfl)

lemma parseNumber_digit_int {a : Char} (ha : a.isDigit = true) (d : Char)
    (hd : d.isDigit = false) (hdot : d ≠ '.') (rest : Str) :
    parseNumber (a :: d :: rest) = some ((digitsToNat [a] : ℚ), d :: rest) := by
  have hna : ¬ a = '-' := by
    intro h
    rw [h] at ha
    simp at ha
  simp +decide [parseNumber, hd, ha, hna]
  split
  · next r heq =>
    rw [List.cons.injEq] at heq
    exact absurd heq.1 hdot
  · rfl

lemma parseNumber_frac2 {f1 f2 : Char} (hf1 : f1.isDigit = true)
    (hf2 : f2.isDigit = true) (d : Char) (hd : d.isDigit = false) (rest : Str) :
    parseNumber ('0' :: '.' :: f1 :: f2 :: d :: rest) =
      some ((digitsToNat [f1, f2] : ℚ) / 100, d :: rest) := by
  simp +decide [parseNumber, hd, hf1, hf2, digitsToNat]
  norm_num

lemma parseNumber_frac1 {f1 : Char} (hf1 : f1.isDigit = true)
    (d : Char) (hd : d.isDigit = false) (rest : Str) :
    parseNumber ('0' :: '.' :: f1 :: d :: rest) =
      some ((digitsToNat [f1] : ℚ) / 10, d :: rest) := by
  simp +decide [parseNumber, hd, hf1, digitsToNat]

/-! ### Member-level round-trip -/

/-- Conditions on a rendered value needed by the member parser: the
rendering starts with a non-whitespace character, and `parseValue` consumes
exactly the rendering when followed by a non-digit, non-dot delimiter. -/
def ValOK (v : JVal) : Prop :=
  (∀ tail, skipWs (renderJVal v ++ tail) = renderJVal v ++ tail) ∧
  (∀ (d : Char) (rest : Str), d.isDigit = false → d ≠ '.' →
    parseValue (renderJVal v ++ d :: rest) = some (v, d :: rest))

lemma skipWs_cons_of_ws {c : Char} (h : jsonWs c = true) (s : Str) :
    skipWs (c :: s) = skipWs s := by
  simp [skipWs, List.dropWhile_cons, h]

lemma skipWs_cons_of_not {c : Char} (h : jsonWs c = false) (s : Str) :
    skipWs (c :: s) = c :: s := by
  simp [skipWs, List.dropWhile_cons, h]

lemma valOK_jstr (s : Str) : ValOK (.jstr s) := by
  constructor
  · intro tail
    show skipWs (quoteStr s ++ tail) = quoteStr s ++ tail
    rw [quoteStr, List.cons_append]
    exact skipWs_cons_of_not (by decide) _
  · intro d rest hd hdot
    show parseValue (quoteStr s ++ d :: rest) = _
    rw [quoteStr]
    simp +decide [parseValue, List.append_assoc, parseStringBody_escape]

lemma dg0 : digitsToNat ['0'] = 0 := by decide
lemma dg1 : digitsToNat ['1'] = 1 := by decide
lemma dg15 : digitsToNat ['1', '5'] = 15 := by decide
lemma dg3 : digitsToNat ['3'] = 3 := by decide
lemma dg45 : digitsToNat ['4', '5'] = 45 := by decide
lemma dg6 : digitsToNat ['6'] = 6 := by decide
lemma dg75 : digitsToNat ['7', '5'] = 75 := by decide
lemma dg9 : digitsToNat ['9'] = 9 := by decide

lemma valOK_conf {q : ℚ} (hq : q ∈ confSet) : ValOK (.jnum q) := by
  have hrender : renderJVal (.jnum q) = renderConf q := rfl
  simp only [confSet, List.mem_cons, List.not_mem_nil, or_false] at hq
  rcases hq with rfl | rfl | rfl | rfl | rfl | rfl | rfl | rfl
  · refine ⟨fun tail => ?_, fun d rest hd hdot => ?_⟩
    · rw [hrender, renderConf_0, List.cons_append]
      exact skipWs_cons_of_not (by decide) _
    · rw [hrender, renderConf_0]
      show parseValue ('0' :: d :: rest) = _
      simp +decide [parseValue, @parseNumber_digit_int '0' (by decide) d hd hdot, dg0]
  · refine ⟨fun tail => ?_, fun d rest hd hdot => ?_⟩
    · rw [hrender, renderConf_015, List.cons_append]
      exact skipWs_cons_of_not (by decide) _
    · rw [hrender, renderConf_015]
      show parseValue ('0' :: '.' :: '1' :: '5' :: d :: rest) = _
      simp +decide [parseValue, @parseNumber_frac2 '1' '5' (by decide) (by decide) d hd, dg15]
      norm_num
  · refine ⟨fun tail => ?_, fun d rest hd hdot => ?_⟩
    · rw [hrender, renderConf_03, List.cons_append]
      exact skipWs_cons_of_not (by decide) _
    · rw [hrender, renderConf_03]
      show parseValue ('0' :: '.' :: '3' :: d :: rest) = _
      simp +decide [parseValue, @parseNumber_frac1 '3' (by decide) d hd, dg3]
  · refine ⟨fun tail => ?_, fun d rest hd hdot => ?_⟩
    · rw [hrender, renderConf_045, List.cons_append]
      exact skipWs_cons_of_not (by decide) _
    · rw [hrender, renderConf_045]
      show parseValue ('0' :: '.' :: '4' :: '5' :: d :: rest) = _
      simp +decide [parseValue, @parseNumber_frac2 '4' '5' (by decide) (by decide) d hd, dg45]
      norm_num
  · refine ⟨fun tail => ?_, fun d rest hd hdot => ?_⟩
    · rw [hrender, renderConf_06, List.cons_append]
      exact skipWs_cons_of_not (by decide) _
    · rw [hrender, renderConf_06]
      show parseValue ('0' :: '.' :: '6' :: d :: rest) = _
      simp +decide [parseValue, @parseNumber_frac1 '6' (by decide) d hd, dg6]
      norm_num
  · refine ⟨fun tail => ?_, fun d rest hd hdot => ?_⟩
    · rw [hrender, renderConf_075, List.cons_append]
      exact skipWs_cons_of_not (by decide) _
    · rw [hrender, renderConf_075]
      show parseValue ('0' :: '.' :: '7' :: '5' :: d :: rest) = _
      simp +decide [parseValue, @parseNumber_frac2 '7' '5' (by decide) (by decide) d hd, dg75]
      norm_num
  · refine ⟨fun tail => ?_, fun d rest hd hdot => ?_⟩
    · rw [hrender, renderConf_09, List.cons_append]
      exact skipWs_cons_of_not (by decide) _
    · rw [hrender, renderConf_09]
      show parseValue ('0' :: '.' :: '9' :: d :: rest) = _
      simp +decide [parseValue, @parseNumber_frac1 '9' (by decide) d hd, dg9]
  · refine ⟨fun tail => ?_, fun d rest hd hdot => ?_⟩
    · rw [hrender, renderConf_1, List.cons_append]
      exact skipWs_cons_of_not (by decide) _
    · rw [hrender, renderConf_1]
      show parseValue ('1' :: d :: rest) = _
      simp +decide [parseValue, @parseNumber_digit_int '1' (by decide) d hd hdot, dg1]

/-! ### Object-level round-trip -/

lemma intercalate_single (sep a : Str) : List.intercalate sep [a] = a := by
  simp [List.intercalate, List.intersperse_singleton]

lemma intercalate_cons₂ (sep a b : Str) (l : List Str) :
    List.intercalate sep (a :: b :: l) =
      a ++ (sep ++ List.intercalate sep (b :: l)) := by
  simp [List.intercalate, List.intersperse_cons_cons, List.append_assoc]

lemma parseMembers_succ_ws {c : Char} (hc : jsonWs c = true) (n : Nat) (s : Str) :
    parseMembers (n + 1) (c :: s) = parseMembers (n + 1) s := by
  conv_lhs => rw [parseMembers]
  conv_rhs => rw [parseMembers]
  rw [skipWs_cons_of_ws hc]

lemma parseMembers_chain :
    ∀ (ms : List (Str × JVal)), ms ≠ [] → (∀ kv ∈ ms, ValOK kv.2) →
      ∀ (k : Nat) (rest : Str),
      parseMembers (ms.length + k + 1)
        (List.intercalate ((",\n").data) (ms.map renderMember) ++
          '\n' :: Char.ofNat 125 :: rest) = some (ms, rest) := by
  have h2sp : (("  ").data : Str) = [' ', ' '] := rfl
  have hcol : ((": ").data : Str) = [':', ' '] := rfl
  have hcnl : (((",\n").data) : Str) = [',', '\n'] := rfl
  intro ms
  induction ms with
  | nil => intro h; exact absurd rfl h
  | cons kv ms2 ih =>
    intro _ hall k rest
    have hv : ValOK kv.2 := hall kv (List.mem_cons_self _ _)
    cases ms2 with
    | nil =>
      rw [List.map_cons, List.map_nil, intercalate_single]
      rw [show ([kv] : List (Str × JVal)).length + k + 1 = (k + 1) + 1 from by
        simp only [List.length_cons, List.length_nil]
        omega]
      conv_lhs => rw [parseMembers]
      simp +decide [renderMember, quoteStr, h2sp, hcol, List.append_assoc,
        @skipWs_cons_of_ws ' ' (by decide), @skipWs_cons_of_ws '\n' (by decide),
        @skipWs_cons_of_not (Char.ofNat 34) (by decide),
        @skipWs_cons_of_not ':' (by decide), @skipWs_cons_of_not ',' (by decide),
        @skipWs_cons_of_not (Char.ofNat 125) (by decide),
        parseStringBody_escape, hv.1, hv.2]
    | cons kv2 ms3 =>
      rw [List.map_cons, List.map_cons, intercalate_cons₂]
      rw [show ((kv :: kv2 :: ms3).length + k + 1) =
          (((kv2 :: ms3).length + k + 1)) + 1 from by
        simp only [List.length_cons]
        omega]
      have hih := ih (by simp) (fun kv2 h => hall kv2 (List.mem_cons_of_mem _ h)) k rest
      rw [List.map_cons] at hih
      conv_lhs => rw [parseMembers]
      simp +decide [renderMember, quoteStr, h2sp, hcol, hcnl, List.append_assoc,
        @skipWs_cons_of_ws ' ' (by decide), @skipWs_cons_of_ws '\n' (by decide),
        @skipWs_cons_of_not (Char.ofNat 34) (by decide),
        @skipWs_cons_of_not ':' (by decide), @skipWs_cons_of_not ',' (by decide),
        @skipWs_cons_of_not (Char.ofNat 125) (by decide),
        parseStringBody_escape, hv.1, hv.2,
        @parseMembers_succ_ws '\n' (by decide)]
      simpa +decide [renderMember, quoteStr, h2sp, hcol, hcnl, List.append_assoc,
        List.length_cons] using hih

lemma intercalate_length_ge (l : List Str) :
    l.length ≤ (List.intercalate ((",\n").data) l).length + 1 := by
  have hl2 : (((",\n").data : Str)).length = 2 := rfl
  induction l with
  | nil => simp
  | cons a t ih =>
    cases t with
    | nil => simp [intercalate_single]
    | cons b t2 =>
      rw [intercalate_cons₂]
      simp only [List.length_cons, List.length_append, hl2] at *
      omega

lemma recordFields_length (r : TicketRecord) : (recordFields r).length = 10 := rfl

lemma recordFields_valOK (r : TicketRecord) (hconf : r.confidence ∈ confSet) :
    ∀ kv ∈ recordFields r, ValOK kv.2 := by
  intro kv hkv
  simp only [recordFields, List.mem_cons, List.not_mem_nil, or_false] at hkv
  rcases hkv with rfl | rfl | rfl | rfl | rfl | rfl | rfl | rfl | rfl | rfl
  · exact valOK_jstr _
  · exact valOK_jstr _
  · exact valOK_jstr _
  · exact valOK_jstr _
  · exact valOK_jstr _
  · exact valOK_jstr _
  · exact valOK_jstr _
  · exact valOK_conf hconf
  · exact valOK_jstr _
  · exact valOK_jstr _

/-- `JSON.parse` recovers exactly the ten rendered members from
`toJSON`'s output. -/
lemma jsonParseObj_toJSON (r : TicketRecord) (hconf : r.confidence ∈ confSet) :
    jsonParseObj (toJSON r) = some (recordFields r) := by
  rw [toJSON]
  simp only [jsonParseObj, @skipWs_cons_of_not (Char.ofNat 123) (by decide)]
  rw [if_pos (show (Char.ofNat 123).val = 123 from by decide)]
  have hged : 10 ≤
      (List.intercalate ((",\n").data) ((recordFields r).map renderMember)).length + 1 := by
    have h := intercalate_length_ge ((recordFields r).map renderMember)
    simpa [recordFields] using h
  obtain ⟨m, hm⟩ : ∃ m,
      (List.intercalate ((",\n").data) ((recordFields r).map renderMember)).length =
        m + 9 :=
    ⟨(List.intercalate ((",\n").data) ((recordFields r).map renderMember)).length - 9,
      by omega⟩
  rw [show ('\n' ::
        (List.intercalate ((",\n").data) ((recordFields r).map renderMember) ++
          ['\n', Char.ofNat 125])).length + 1 =
      (recordFields r).length + (m + 2) + 1 from by
    simp only [List.length_cons, List.length_append, List.length_nil, hm,
      recordFields_length]
    omega]
  rw [@parseMembers_succ_ws '\n' (by decide)]
  rw [parseMembers_chain (recordFields r) (by simp [recordFields])
    (recordFields_valOK r hconf) (m + 2) []]
  rfl

/-- Round trip of the full record through `toJSON` and `recordFromJSON`,
provided the confidence is one of the renderable values. -/
lemma recordFromJSON_toJSON (r : TicketRecord) (hconf : r.confidence ∈ confSet) :
    recordFromJSON (toJSON r) = some r := by
  rw [recordFromJSON]
  rw [jsonParseObj_toJSON r hconf]
  simp +decide [recordFields, getStr, getNum, List.lookup]

/-- `min (m * 0.15) 1` only takes the eight values `0, 0.15, ..., 0.9, 1`. -/
lemma confOf_mem (m : Nat) : confOf m ∈ confSet := by
  match m with
  | 0 => exact of_decide_eq_true (by with_unfolding_all rfl)
  | 1 => exact of_decide_eq_true (by with_unfolding_all rfl)
  | 2 => exact of_decide_eq_true (by with_unfolding_all rfl)
  | 3 => exact of_decide_eq_true (by with_unfolding_all rfl)
  | 4 => exact of_decide_eq_true (by with_unfolding_all rfl)
  | 5 => exact of_decide_eq_true (by with_unfolding_all rfl)
  | 6 => exact of_decide_eq_true (by with_unfolding_all rfl)
  | (n + 7) =>
    have hn : (0 : ℚ) ≤ (n : ℚ) := Nat.cast_nonneg n
    have h1 : (1 : ℚ) ≤ ((n + 7 : Nat) : ℚ) * (15/100) := by
      push_cast
      nlinarith
    have he : confOf (n + 7) = 1 := by
      rw [confOf]
      exact min_eq_right h1
    rw [he]
    exact of_decide_eq_true (by with_unfolding_all rfl)

/-- Every confidence `classifyIssue` reports is one of the eight
renderable values. -/
lemma classify_conf_mem (t : Str) : (classifyIssue t).confidence ∈ confSet := by
  by_cases h0 : t = []
  · subst h0
    exact of_decide_eq_true (by with_unfolding_all rfl)
  by_cases h1 : maxScoreOf t ≤ 1
  · rw [classify_floor h0 h1]
    exact of_decide_eq_true (by with_unfolding_all rfl)
  · obtain ⟨l₁, c, l₂, _, _, _, hcl⟩ := classify_best (t := t) (by omega)
    rw [hcl]
    exact confOf_mem _

/-- Any record `parse` returns carries one of the renderable confidence
values. -/
lemma parse_ok_conf_mem {ε : Entropy} {t : Str} {r : TicketRecord}
    (h : parse ε t = .ok r) : r.confidence ∈ confSet := by
  simp only [parse] at h
  split at h
  · exact absurd h (by simp)
  split at h
  · exact absurd h (by simp)
  split at h
  · exact absurd h (by simp)
  split at h
  · exact absurd h (by simp)
  injection h with h2
  subst h2
  exact classify_conf_mem _

/-! ### Claim C8 -/

/-- C8: every `TicketRecord` that `parse` produces survives the round trip
through `toJSON` (`JSON.stringify(parsed, null, 2)`) and `JSON.parse`
unchanged, field for field. -/
theorem C8_roundtrip (ε : Entropy) (t : Str) (r : TicketRecord)
    (h : parse ε t = .ok r) : recordFromJSON (toJSON r) = some r :=
  recordFromJSON_toJSON r (parse_ok_conf_mem h)

theorem C8_roundtrip_witness :
    parse ⟨("T").data, ("TS").data⟩ (("zzz").data) =
      .ok ⟨("T").data, ("Unknown Sender").data, ("zzz").data, ("zzz").data,
        ("other").data, ("Other").data, ("medium").data, 3/20, ("TS").data,
        ("ℹ️ Very brief message - may need follow-up for more details").data⟩ ∧
    recordFromJSON (toJSON
      (⟨("T").data, ("Unknown Sender").data, ("zzz").data, ("zzz").data,
        ("other").data, ("Other").data, ("medium").data, 3/20, ("TS").data,
        ("ℹ️ Very brief message - may need follow-up for more details").data⟩ :
        TicketRecord)) =
      some ⟨("T").data, ("Unknown Sender").data, ("zzz").data, ("zzz").data,
        ("other").data, ("Other").data, ("medium").data, 3/20, ("TS").data,
        ("ℹ️ Very brief message - may need follow-up for more details").data⟩ :=
  ⟨by with_unfolding_all rfl,
   C8_roundtrip ⟨("T").data, ("TS").data⟩ (("zzz").data) _
     (by with_unfolding_all rfl)⟩

end EmailTicket
